import Mathlib

/-!
Shallow embedding of `src/src/apps/wallets/wallet.py` (the specter-diy wallet
core: gap tracking, ownership matching, PSBT reconciliation, signing dispatch
and persistence glue).  The external collaborators declared out of scope by
the spec — the bitcoin descriptor engine, hashing, script serialization and
the PSBT `sign_with` effect — are modelled from the spec as abstract
interfaces carried in structures, so every wallet-level operation is a
faithful translation of the Python source over those interfaces.
-/

namespace SpecterDiy

/-- Error kinds the wallet code can raise: the `WalletError` cases of the
source plus the Python runtime errors reachable from it (tuple-unpacking
`ValueError` in `parse`, arity `TypeError` in `fill_psbt`). -/
inductive WErr where
  | invalidBranch
  | invalidIndex
  | pathNotDefined
  | valueError
  | typeError
deriving DecidableEq

/-- Modelled from the spec: a bitcoin script value as produced by the external
script engine; `data` is the serialized script body (`script.data`) and
`stype` the structural script-pubkey type tag the library computes
(`script.script_type()`). -/
structure Script where
  data : List Nat
  stype : Nat
deriving DecidableEq

/-- Transaction output; the wallet code only reads its script-pubkey. -/
structure TxOut where
  script_pubkey : Script
deriving DecidableEq

/-- Claimed derivation hint attached to a pubkey in a PSBT scope
(`bitcoin.psbt.DerivationPath`): a master fingerprint plus a path. -/
structure DerivationPath where
  fingerprint : List Nat
  derivation : List Nat
deriving DecidableEq

/-- Modelled from the spec: one key entry of a descriptor.  `derivation` is
the steps already applied from master to this entry, `deriveChild steps` is
the opaque `key.derive(steps).get_public_key()` returning a pubkey
identifier. -/
structure KeyEntry where
  fingerprint : List Nat
  derivation : List Nat
  is_extended : Bool
  allowed_derivation : Option Nat
  is_private : Bool
  deriveChild : List Nat → Nat

/-- Key of a derived (branch/index-materialized) descriptor, as consumed by
`sign_psbt`. -/
structure DKey where
  is_private : Bool
  private_key : Nat

/-- Modelled from the spec (sections 3, 4.1): the external descriptor engine,
specified at its interface only.  `deriveSpk idx branch` stands for
`descriptor.derive(idx, branch_index=branch).script_pubkey()` — note the
argument order of the library's `derive`, whose first positional argument is
the address index — and likewise for the witness/redeem scripts and the
derived key list.  `checkDer` is the Derivation Policy check
(`descriptor.check_derivation`); per spec section 4.1 it only yields
coordinates `(branch, index)` with the branch inside `[0, num_branches)` and
the index below `2^31`, which `checkDer_valid` records. -/
structure Descriptor where
  num_branches : Nat
  scriptpubkey_type : Nat
  script_len : Nat
  sh : Bool
  keys : List KeyEntry
  checkDer : DerivationPath → Option (Nat × Nat)
  deriveSpk : Nat → Nat → Script
  deriveWitness : Nat → Nat → Script
  deriveRedeem : Nat → Nat → Script
  deriveKeys : Nat → Nat → List DKey
  checkDer_valid : ∀ p b i, checkDer p = some (b, i) → b < num_branches ∧ i < 2 ^ 31

/-- Claimed-derivation map of a scope: pubkey identifier to claimed path,
in insertion order (Python dict iteration order). -/
abbrev BipDers := List (Nat × DerivationPath)

/-- Input scope of a PSBT.  `utxo` is the referenced previous output the code
obtains through `psbt.utxo(i)`; `unknown` holds the proprietary key/value
fields; `sigs` the partial signatures. -/
structure InputScope where
  utxo : TxOut
  bip32_derivations : BipDers
  witness_script : Option Script
  redeem_script : Option Script
  unknown : List (List Nat × List Nat)
  sigs : List (Nat × Nat)
deriving DecidableEq

/-- Output scope of a PSBT. -/
structure OutputScope where
  bip32_derivations : BipDers
  witness_script : Option Script
  redeem_script : Option Script
deriving DecidableEq

/-- Partially signed transaction; `tx_vout` is `psbt.tx.vout`, aligned with
`outputs`. -/
structure Psbt where
  tx_vout : List TxOut
  inputs : List InputScope
  outputs : List OutputScope
deriving DecidableEq

/-- Modelled from the spec: the remaining external collaborators —
`hashes.hash160`, descriptor serialization (`str(descriptor)`) and parsing
(`Descriptor.from_string`), the `psbt.sign_with(key, sighash)` effect and the
default allowed-derivation wildcard `AllowedDerivation.default()` (an opaque
tag). -/
structure BtcLib where
  hash160 : List Char → List Nat
  descToString : Descriptor → List Char
  fromString : List Char → Except WErr Descriptor
  signWith : Psbt → Nat → Nat → Psbt
  defaultAllowed : Nat

/-- Python `or` on two optional script values (`a or b`); a present script is
treated as truthy. -/
def orOpt (a b : Option Script) : Option Script :=
  match a with
  | some s => some s
  | none => b

/-- Python dict lookup on an association list kept in insertion order. -/
def assocGet {α β : Type} [DecidableEq α] : List (α × β) → α → Option β
  | [], _ => none
  | (k, v) :: rest, key => if k = key then some v else assocGet rest key

/-- Python dict assignment: replace the value if the key exists, else append. -/
def assocSet {α β : Type} [DecidableEq α] : List (α × β) → α → β → List (α × β)
  | [], key, v => [(key, v)]
  | (k, w) :: rest, key, v =>
      if k = key then (key, v) :: rest else (k, w) :: assocSet rest key v

/-- Python `s.split(sep)` for a one-character separator: splits at every
occurrence; `"".split(sep)` is `[""]`. -/
def splitChar (sep : Char) : List Char → List (List Char)
  | [] => [[]]
  | c :: rest =>
      let r := splitChar sep rest
      if c = sep then [] :: r else (c :: r.headD []) :: r.tail

/-- Python `s.rstrip("/")`: drop every trailing slash. -/
def rstripSlash (s : List Char) : List Char :=
  (s.reverse.dropWhile (fun c => c = '/')).reverse

/-- Little-endian uint32 decoding of the proprietary-field value: one
derivation step per 4-byte chunk (`int.from_bytes(der[4*i:4*i+4], "little")`
for `i` in `range(len(der) // 4)`; a trailing remainder shorter than 4 bytes
is dropped). -/
def decodeSteps : List Nat → List Nat
  | b0 :: b1 :: b2 :: b3 :: rest =>
      (b0 + 256 * b1 + 65536 * b2 + 16777216 * b3) :: decodeSteps rest
  | _ => []

/-- Error-propagating map over a list, used for the per-input loops that can
raise. -/
def mapMExcept {α β : Type} (f : α → Except WErr β) : List α → Except WErr (List β)
  | [] => .ok []
  | a :: rest =>
      match f a with
      | .error e => .error e
      | .ok b =>
          match mapMExcept f rest with
          | .error e => .error e
          | .ok r => .ok (b :: r)

/-- Wallet state (`Wallet.__init__` fields): display name, optional storage
path, descriptor, per-branch gap watermarks, next-unused-receive cache and
the optionally bound keystore (an opaque identifier; `None` until the wallet
is saved or loaded). -/
structure Wallet where
  name : List Char
  path : Option (List Char)
  descriptor : Descriptor
  gaps : List Nat
  unused_recv : Int
  keystore : Option Nat

/-- Class attribute `Wallet.GAP_LIMIT = 20`. -/
def Wallet.GAP_LIMIT : Nat := 20

/-- Constructor `Wallet.__init__(desc, path, name)`: strips trailing slashes
from the path (the `maybe_mkdir` filesystem effect is external), sets one
`GAP_LIMIT` watermark per branch, `unused_recv = 0` and no keystore. -/
def Wallet.init (desc : Descriptor) (path : Option (List Char)) (name : List Char) : Wallet :=
  { name := name
    path := path.map rstripSlash
    descriptor := desc
    gaps := List.replicate desc.num_branches Wallet.GAP_LIMIT
    unused_recv := 0
    keystore := none }

/-- Wallet fingerprint property: `hashes.hash160(str(self.descriptor))[:4]`. -/
def Wallet.fingerprint (lib : BtcLib) (w : Wallet) : List Nat :=
  (lib.hash160 (lib.descToString w.descriptor)).take 4

/-- Property `has_private_keys`: any descriptor key carries private material. -/
def Wallet.has_private_keys (w : Wallet) : Bool :=
  w.descriptor.keys.any (fun k => k.is_private)

/-- Method `script_pubkey(derivation)`: validates the two-element coordinate
(the negative-index checks of the source are vacuous over `Nat`;
`0x80000000 = 2^31`) and returns the derived script-pubkey together with the
branch gap watermark (`self.gaps[branch_idx]`, total here via `getD`; the
wallet invariant keeps the branch in range). -/
def Wallet.script_pubkey (w : Wallet) (derivation : Nat × Nat) : Except WErr (Script × Nat) :=
  let branch_idx := derivation.1
  let idx := derivation.2
  if w.descriptor.num_branches ≤ branch_idx then .error .invalidBranch
  else if 0x80000000 ≤ idx then .error .invalidIndex
  else .ok (w.descriptor.deriveSpk idx branch_idx, w.gaps.getD branch_idx 0)

/-- Method `get_derivation(bip32_derivations)`: first claimed hint whose path
has at least two components and passes the descriptor's derivation check. -/
def Wallet.get_derivation (w : Wallet) : BipDers → Option (Nat × Nat)
  | [] => none
  | (_, dp) :: rest =>
      if 2 ≤ dp.derivation.length then
        match w.descriptor.checkDer dp with
        | some der => some der
        | none => w.get_derivation rest
      else w.get_derivation rest

/-- Length mismatch test of `owns`: `script and (len(script.data) != self.descriptor.script_len)`. -/
def scriptLenBad (d : Descriptor) : Option Script → Bool
  | some s => decide (s.data.length ≠ d.script_len)
  | none => false

/-- Method `owns(tx_out, bip32_derivations, script)`: the four short-circuited
checks — script-pubkey type, optional script length, derivation recovery,
byte-equality of the reconstructed script-pubkey. -/
def Wallet.owns (w : Wallet) (tx_out : TxOut) (bip32_derivations : BipDers)
    (script : Option Script) : Except WErr Bool :=
  if tx_out.script_pubkey.stype ≠ w.descriptor.scriptpubkey_type then .ok false
  else if scriptLenBad w.descriptor script then .ok false
  else
    match w.get_derivation bip32_derivations with
    | none => .ok false
    | some der => (w.script_pubkey der).map (fun p => decide (p.1 = tx_out.script_pubkey))

/-- First loop of `update_gaps`: collect the claimed-derivation maps of the
owned input scopes (`self.owns(psbt.utxo(i), inp.bip32_derivations,
inp.witness_script or inp.redeem_script)`). -/
def Wallet.collectIns (w : Wallet) : List InputScope → Except WErr (List BipDers)
  | [] => .ok []
  | inp :: rest =>
      match w.owns inp.utxo inp.bip32_derivations (orOpt inp.witness_script inp.redeem_script) with
      | .error e => .error e
      | .ok b =>
          match w.collectIns rest with
          | .error e => .error e
          | .ok r => .ok (if b then inp.bip32_derivations :: r else r)

/-- Second loop of `update_gaps`: owned output scopes, each tested against the
matching `psbt.tx.vout[i]` (zipped; a valid PSBT has equally many). -/
def Wallet.collectOuts (w : Wallet) : List (OutputScope × TxOut) → Except WErr (List BipDers)
  | [] => .ok []
  | (out, txo) :: rest =>
      match w.owns txo out.bip32_derivations (orOpt out.witness_script out.redeem_script) with
      | .error e => .error e
      | .ok b =>
          match w.collectOuts rest with
          | .error e => .error e
          | .ok r => .ok (if b then out.bip32_derivations :: r else r)

/-- Owned scopes of a PSBT in source order: inputs first, then outputs. -/
def Wallet.collectScopes (w : Wallet) (p : Psbt) : Except WErr (List BipDers) :=
  match w.collectIns p.inputs with
  | .error e => .error e
  | .ok s1 =>
      match w.collectOuts (p.outputs.zip p.tx_vout) with
      | .error e => .error e
      | .ok s2 => .ok (s1 ++ s2)

/-- Per-scope body of the third `update_gaps` loop:
`if idx + GAP_LIMIT > gaps[branch]: gaps[branch] = idx + GAP_LIMIT + 1`. -/
def gapStep (w : Wallet) (gaps : List Nat) (ds : BipDers) : List Nat :=
  match w.get_derivation ds with
  | some (b, idx) =>
      if idx + Wallet.GAP_LIMIT > gaps.getD b 0
      then gaps.set b (idx + Wallet.GAP_LIMIT + 1) else gaps
  | none => gaps

/-- Third `update_gaps` loop folded over the collected scopes. -/
def Wallet.applyScopeDers (w : Wallet) : List Nat → List BipDers → List Nat
  | gaps, [] => gaps
  | gaps, ds :: rest => w.applyScopeDers (gapStep w gaps ds) rest

/-- Per-branch body of the `known_idxs` loop:
`if known is not None and known + GAP_LIMIT > gap: gap = known + GAP_LIMIT`. -/
def knownStep (l gv : Nat) : Option Nat → Nat
  | some v => if v + l > gv then v + l else gv
  | none => gv

/-- The `known_idxs` loop of `update_gaps`, pointwise over the branches (the
source indexes `known_idxs[i]`, raising if the vector is shorter; entries past
its end are modelled as absent). -/
def applyKnown (l : Nat) : List Nat → List (Option Nat) → List Nat
  | [], _ => []
  | g :: gs, [] => g :: gs
  | g :: gs, k :: ks => knownStep l g k :: applyKnown l gs ks

/-- Optional `known_idxs` argument handling. -/
def applyKnownOpt (g : List Nat) : Option (List (Option Nat)) → List Nat
  | none => g
  | some ks => applyKnown Wallet.GAP_LIMIT g ks

/-- Gap state after the PSBT half of `update_gaps`. -/
def Wallet.gapsFromPsbt (w : Wallet) : Option Psbt → Except WErr (List Nat)
  | none => .ok w.gaps
  | some p =>
      match w.collectScopes p with
      | .error e => .error e
      | .ok dss => .ok (w.applyScopeDers w.gaps dss)

/-- Final assignments of `update_gaps`:
`self.unused_recv = gaps[0] - self.GAP_LIMIT; self.gaps = gaps`. -/
def Wallet.withGaps (w : Wallet) (g : List Nat) : Wallet :=
  { w with gaps := g, unused_recv := (g.headD 0 : Int) - (Wallet.GAP_LIMIT : Int) }

/-- Method `update_gaps(psbt, known_idxs)`: fold owned-scope observations with
margin `GAP_LIMIT + 1` past the `GAP_LIMIT` threshold, then external hints
with margin `GAP_LIMIT`, then recompute `unused_recv`. -/
def Wallet.update_gaps (w : Wallet) (psbt : Option Psbt)
    (known_idxs : Option (List (Option Nat))) : Except WErr Wallet :=
  (w.gapsFromPsbt psbt).map (fun g1 => w.withGaps (applyKnownOpt g1 known_idxs))

/-- Sequence of `update_gaps` calls, each with an optional PSBT and an
optional external hint vector. -/
def runUpdates : Wallet → List (Option Psbt × Option (List (Option Nat))) → Except WErr Wallet
  | w, [] => .ok w
  | w, c :: cs =>
      match w.update_gaps c.1 c.2 with
      | .error e => .error e
      | .ok w1 => runUpdates w1 cs

/-- Key loop of `fill_psbt`: for every descriptor key whose master fingerprint
equals the caller-supplied signer fingerprint, insert
`bip32_derivations[key.derive(wd).get_public_key()] = (fingerprint, key.derivation + wd)`. -/
def fillKeys (fingerprint : List Nat) (wd : List Nat) : List KeyEntry → BipDers → BipDers
  | [], ders => ders
  | k :: rest, ders =>
      if k.fingerprint = fingerprint then
        fillKeys fingerprint wd rest
          (assocSet ders (k.deriveChild wd) ⟨fingerprint, k.derivation ++ wd⟩)
      else fillKeys fingerprint wd rest ders

/-- Per-input body of `fill_psbt`: look up the proprietary field keyed by
`b"\xfc\xca\x01" + self.fingerprint`, decode its little-endian uint32 steps,
fill the claimed derivations, then set the witness (and, for script-hash
wrapped descriptors, redeem) script from `self.descriptor.derive(*steps)` —
the splat passes `steps[0]` as the library's address-index argument and
`steps[1]` as `branch_index`.  A step count other than one or two makes the
splatted call raise. -/
def Wallet.fillScope (lib : BtcLib) (w : Wallet) (fingerprint : List Nat)
    (scope : InputScope) : Except WErr InputScope :=
  let wallet_key := 0xfc :: 0xca :: 0x01 :: w.fingerprint lib
  match assocGet scope.unknown wallet_key with
  | none => .ok scope
  | some der =>
      let wd := decodeSteps der
      let ders := fillKeys fingerprint wd w.descriptor.keys scope.bip32_derivations
      match wd with
      | [a] =>
          let s1 := { scope with
            bip32_derivations := ders
            witness_script := some (w.descriptor.deriveWitness a 0) }
          .ok (if w.descriptor.sh then
                { s1 with redeem_script := some (w.descriptor.deriveRedeem a 0) }
              else s1)
      | [a, c] =>
          let s1 := { scope with
            bip32_derivations := ders
            witness_script := some (w.descriptor.deriveWitness a c) }
          .ok (if w.descriptor.sh then
                { s1 with redeem_script := some (w.descriptor.deriveRedeem a c) }
              else s1)
      | _ => .error .typeError

/-- Method `fill_psbt(psbt, fingerprint)` over all inputs. -/
def Wallet.fill_psbt (lib : BtcLib) (w : Wallet) (psbt : Psbt)
    (fingerprint : List Nat) : Except WErr Psbt :=
  (mapMExcept (w.fillScope lib fingerprint) psbt.inputs).map
    (fun ins => { psbt with inputs := ins })

/-- Inner loop of `sign_psbt`: sign with every private key of the derived
descriptor (the list is prefiltered, mirroring the source's redundant
`if k.is_private`). -/
def signOneInput (lib : BtcLib) (sighash : Nat) (p : Psbt) (ks : List DKey) : Psbt :=
  ks.foldl (fun acc k => if k.is_private then lib.signWith acc k.private_key sighash else acc) p

/-- Input loop of `sign_psbt`: resolve a coordinate per input, skip silently
when none resolves, else derive the key set and sign. -/
def Wallet.signInputs (lib : BtcLib) (w : Wallet) (sighash : Nat) : Psbt → List InputScope → Psbt
  | p, [] => p
  | p, inp :: rest =>
      match w.get_derivation inp.bip32_derivations with
      | none => w.signInputs lib sighash p rest
      | some (branch, idx) =>
          let ks := (w.descriptor.deriveKeys idx branch).filter (fun k => k.is_private)
          w.signInputs lib sighash (signOneInput lib sighash p ks) rest

/-- Method `sign_psbt(psbt, sighash)`: immediate return when the wallet holds
no private key material. -/
def Wallet.sign_psbt (lib : BtcLib) (w : Wallet) (psbt : Psbt) (sighash : Nat) : Psbt :=
  if w.has_private_keys then w.signInputs lib sighash psbt psbt.inputs else psbt

/-- Method `save(keystore, path)`: binds the keystore first, then resolves the
path, raising when none is known; on success the two encrypted blobs are
written (modelled by their target paths; contents go through the external
`save_aead`).  Returns the wallet state after the call next to the outcome. -/
def Wallet.save (w : Wallet) (keystore : Nat) (path : Option (List Char)) :
    Wallet × Except WErr (List (List Char)) :=
  let w1 : Wallet := { w with keystore := some keystore }
  let w2 : Wallet :=
    match path with
    | some p => { w1 with path := some (rstripSlash p) }
    | none => w1
  match w2.path with
  | none => (w2, .error .pathNotDefined)
  | some p =>
      (w2, .ok [p ++ ('/' :: "descriptor".toList), p ++ ('/' :: "meta".toList)])

/-- Key-defaulting step of `from_descriptor`: when no key carries an allowed
derivation, every extended key receives the default two-level wildcard. -/
def fromDescriptorKeys (lib : BtcLib) (keys : List KeyEntry) : List KeyEntry :=
  if keys.all (fun k => k.is_extended && k.allowed_derivation.isNone) then
    keys.map (fun k =>
      if k.is_extended then { k with allowed_derivation := some lib.defaultAllowed } else k)
  else keys

/-- Classmethod `from_descriptor(desc, path)`: strip an optional checksum
suffix and all spaces, parse through the external engine, default the allowed
derivations, construct the wallet. -/
def Wallet.from_descriptor (lib : BtcLib) (desc : List Char)
    (path : Option (List Char)) : Except WErr Wallet :=
  let d := (splitChar '#' desc).headD [] |>.filter (fun c => c ≠ ' ')
  match lib.fromString d with
  | .error e => .error e
  | .ok descriptor =>
      .ok (Wallet.init
        { descriptor with keys := fromDescriptorKeys lib descriptor.keys } path
        ("Untitled".toList))

/-- Classmethod `parse(desc, path)`: `name, desc = desc.split("&")` when an
ampersand is present — Python's unpacking raises `ValueError` unless the
split yields exactly two parts. -/
def Wallet.parse (lib : BtcLib) (desc : List Char)
    (path : Option (List Char)) : Except WErr Wallet :=
  if '&' ∈ desc then
    match splitChar '&' desc with
    | [name, d] =>
        match Wallet.from_descriptor lib d path with
        | .error e => .error e
        | .ok w => .ok { w with name := name }
    | _ => .error .valueError
  else
    match Wallet.from_descriptor lib desc path with
    | .error e => .error e
    | .ok w => .ok { w with name := "Untitled".toList }

/-- Method `__str__`: `"%s&%s" % (self.name, self.descriptor)`. -/
def Wallet.toStr (lib : BtcLib) (w : Wallet) : List Char :=
  w.name ++ '&' :: lib.descToString w.descriptor

/-- Margin bound a single `update_gaps` call contributes, stated against a
final gap state: every owned-scope observation `(b, idx)` of the call's PSBT
keeps the branch-`b` watermark at `idx + GAP_LIMIT` or above, and every
external hint `v` for branch `i` keeps that watermark at `v + GAP_LIMIT` or
above. -/
def CallBound (w : Wallet) (c : Option Psbt × Option (List (Option Nat)))
    (final : List Nat) : Prop :=
  (∀ p, c.1 = some p → ∀ dss, w.collectScopes p = .ok dss → ∀ ds ∈ dss, ∀ b idx,
      w.get_derivation ds = some (b, idx) → idx + Wallet.GAP_LIMIT ≤ final.getD b 0) ∧
  (∀ ks, c.2 = some ks → ∀ i, i < w.gaps.length → ∀ v, ks.getD i none = some v →
      v + Wallet.GAP_LIMIT ≤ final.getD i 0)

/-- Concrete Derivation Policy instance for a two-branch descriptor: a
claimed path is accepted when its two components are a branch below 2 and an
index below the hardened boundary. -/
def demoCheckDer (p : DerivationPath) : Option (Nat × Nat) :=
  match p.derivation with
  | [b, i] => if b < 2 ∧ i < 2 ^ 31 then some (b, i) else none
  | _ => none

/-- Concrete two-branch native-segwit-style descriptor instance with one
extended, non-private key; derivation maps are injective so distinct
coordinates produce distinct scripts. -/
def demoDesc : Descriptor where
  num_branches := 2
  scriptpubkey_type := 7
  script_len := 34
  sh := false
  keys := [{ fingerprint := [9, 9, 9, 9]
             derivation := [5]
             is_extended := true
             allowed_derivation := none
             is_private := false
             deriveChild := fun steps => steps.foldl (fun a s => a * 100 + s + 1) 7 }]
  checkDer := demoCheckDer
  deriveSpk := fun idx br => ⟨[br, idx], 7⟩
  deriveWitness := fun idx br => ⟨[100 + br, idx], 8⟩
  deriveRedeem := fun idx br => ⟨[200 + br, idx], 9⟩
  deriveKeys := fun _ _ => []
  checkDer_valid := by
    intro p b i h
    unfold demoCheckDer at h
    split at h
    · split at h
      · simp only [Option.some.injEq, Prod.mk.injEq] at h
        obtain ⟨rfl, rfl⟩ := h
        assumption
      · exact absurd h (by simp)
    · exact absurd h (by simp)

/-- Concrete external-library instance. -/
def demoLib : BtcLib where
  hash160 := fun _ => [1, 2, 3, 4, 5, 6]
  descToString := fun _ => "desc".toList
  fromString := fun _ => .ok demoDesc
  signWith := fun p k s =>
    { p with inputs := p.inputs.map (fun i => { i with sigs := i.sigs ++ [(k, s)] }) }
  defaultAllowed := 1

/-- Fresh wallet over the concrete descriptor: gaps `[20, 20]`, no path, no
keystore. -/
def demoW : Wallet := Wallet.init demoDesc none ("Untitled".toList)

/-- Input scope owned by `demoW` at coordinate `(b, i)`: its utxo carries the
script-pubkey the descriptor derives there and a correct claimed hint. -/
def demoIn (b i : Nat) : InputScope where
  utxo := ⟨⟨[b, i], 7⟩⟩
  bip32_derivations := [(1, ⟨[9, 9, 9, 9], [b, i]⟩)]
  witness_script := none
  redeem_script := none
  unknown := []
  sigs := []

/-- Single-input PSBT owned at coordinate `(b, i)`. -/
def demoPsbt (b i : Nat) : Psbt := ⟨[], [demoIn b i], []⟩

/-- Wallet a successful `update_gaps`-style computation produced (defaulting
to `demoW`, never taken on the concrete inputs below). -/
def exWallet (e : Except WErr Wallet) : Wallet := e.toOption.getD demoW

/-- Claim C1 counterexample state: one observation at `(0, 0)` on gaps
`[20, 20]`. -/
def cw10 : Wallet := exWallet (demoW.update_gaps (some (demoPsbt 0 0)) none)

/-- Claim C1 witness state, PSBT half: one observation at `(0, 5)`. -/
def cw15 : Wallet := exWallet (demoW.update_gaps (some (demoPsbt 0 5)) none)

/-- Claim C1 witness state, hint half: external hint 30 for branch 0. -/
def cw1k : Wallet := exWallet (demoW.update_gaps none (some [some 30, none]))

/-- Claim C3 counterexample: same two observations, the two input orders. -/
def cpO12 : Psbt := ⟨[], [demoIn 0 1, demoIn 0 2], []⟩

def cpO21 : Psbt := ⟨[], [demoIn 0 2, demoIn 0 1], []⟩

def cw312 : Wallet := exWallet (demoW.update_gaps (some cpO12) none)

def cw321 : Wallet := exWallet (demoW.update_gaps (some cpO21) none)

/-- Claim C3 witness states: two external hint vectors in both orders. -/
def ks3a : List (Option Nat) := [some 30, none]

def ks3b : List (Option Nat) := [some 25, some 40]

def cw3a : Wallet := exWallet (demoW.update_gaps none (some ks3a))

def cw3ab : Wallet := exWallet (cw3a.update_gaps none (some ks3b))

def cw3b : Wallet := exWallet (demoW.update_gaps none (some ks3b))

def cw3ba : Wallet := exWallet (cw3b.update_gaps none (some ks3a))

/-- Claim C6 counterexample state: one observation at `(1, 0)` on gaps
`[20, 20]`, run as a one-call sequence. -/
def cw61 : Wallet := exWallet (runUpdates demoW [(some (demoPsbt 1 0), none)])

/-- Claim C6 witness state: a two-call sequence, PSBT then hints. -/
def calls6 : List (Option Psbt × Option (List (Option Nat))) :=
  [(some (demoPsbt 0 5), none), (none, some [some 30, none])]

def cw6 : Wallet := exWallet (runUpdates demoW calls6)

/-- Claim C7 witness states: the same PSBT reconciled twice. -/
def cw7a : Wallet := exWallet (demoW.update_gaps (some (demoPsbt 0 3)) none)

def cw7b : Wallet := exWallet (cw7a.update_gaps (some (demoPsbt 0 3)) none)

/-- Claim C2 input: a PSBT whose sole input carries the proprietary field
`b"\xfc\xca\x01" + demoW.fingerprint` with value encoding the step sequence
`[0, 7]` (branch 0, address index 7) as little-endian uint32s. -/
def cp2 : Psbt :=
  ⟨[], [{ utxo := ⟨⟨[], 0⟩⟩
          bip32_derivations := []
          witness_script := none
          redeem_script := none
          unknown := [([0xfc, 0xca, 0x01, 1, 2, 3, 4], [0, 0, 0, 0, 7, 0, 0, 0])]
          sigs := [] }], []⟩

/-- Claim C8 witness state: the wallet parsed from the descriptor part. -/
def cw8 : Wallet := exWallet (Wallet.from_descriptor demoLib ('b' :: []) none)

lemma getD_oor (l : List Nat) (i : Nat) (h : l.length ≤ i) : l.getD i 0 = 0 := by
  induction l generalizing i with
  | nil => simp
  | cons x xs ih =>
    cases i with
    | zero => simp at h
    | succ j => simpa using ih j (by simpa using h)

lemma getD_set (l : List Nat) (b v i : Nat) :
    (l.set b v).getD i 0 = if i = b ∧ b < l.length then v else l.getD i 0 := by
  induction l generalizing b i with
  | nil => simp
  | cons x xs ih =>
    cases b with
    | zero =>
      cases i with
      | zero => simp
      | succ j => simp
    | succ b' =>
      cases i with
      | zero => simp
      | succ j =>
        have hiff : (j + 1 = b' + 1 ∧ b' + 1 < (x :: xs).length) ↔ (j = b' ∧ b' < xs.length) := by
          simp only [List.length_cons]
          omega
        simp only [List.set_cons_succ, List.getD_cons_succ]
        rw [ih b' j, if_congr hiff rfl rfl]

lemma gapStep_length (w : Wallet) (gaps : List Nat) (ds : BipDers) :
    (gapStep w gaps ds).length = gaps.length := by
  unfold gapStep
  cases w.get_derivation ds with
  | none => rfl
  | some der =>
    obtain ⟨b, idx⟩ := der
    dsimp only
    split <;> simp

lemma gapStep_mono (w : Wallet) (gaps : List Nat) (ds : BipDers) (i : Nat) :
    gaps.getD i 0 ≤ (gapStep w gaps ds).getD i 0 := by
  unfold gapStep
  cases w.get_derivation ds with
  | none => exact le_refl _
  | some der =>
    obtain ⟨b, idx⟩ := der
    dsimp only
    split
    · rename_i hgt
      rw [getD_set]
      split
      · rename_i hc
        obtain ⟨rfl, -⟩ := hc
        omega
      · exact le_refl _
    · exact le_refl _

lemma gapStep_ge (w : Wallet) (gaps : List Nat) (ds : BipDers) (b idx : Nat)
    (hder : w.get_derivation ds = some (b, idx)) (hb : b < gaps.length) :
    idx + Wallet.GAP_LIMIT ≤ (gapStep w gaps ds).getD b 0 := by
  unfold gapStep
  rw [hder]
  dsimp only
  split
  · rw [getD_set, if_pos ⟨rfl, hb⟩]
    omega
  · rename_i hle
    omega

lemma gapStep_noop (w : Wallet) (gaps : List Nat) (ds : BipDers)
    (h : ∀ b idx, w.get_derivation ds = some (b, idx) →
      idx + Wallet.GAP_LIMIT ≤ gaps.getD b 0) :
    gapStep w gaps ds = gaps := by
  unfold gapStep
  cases hder : w.get_derivation ds with
  | none => rfl
  | some der =>
    obtain ⟨b, idx⟩ := der
    dsimp only
    rw [if_neg]
    have := h b idx hder
    omega

lemma applyScopeDers_length (w : Wallet) (gaps : List Nat) (dss : List BipDers) :
    (w.applyScopeDers gaps dss).length = gaps.length := by
  induction dss generalizing gaps with
  | nil => rfl
  | cons ds rest ih =>
    show (w.applyScopeDers (gapStep w gaps ds) rest).length = gaps.length
    rw [ih (gapStep w gaps ds), gapStep_length]

lemma applyScopeDers_mono (w : Wallet) (gaps : List Nat) (dss : List BipDers) (i : Nat) :
    gaps.getD i 0 ≤ (w.applyScopeDers gaps dss).getD i 0 := by
  induction dss generalizing gaps with
  | nil => exact le_refl _
  | cons ds rest ih =>
    exact le_trans (gapStep_mono w gaps ds i) (ih (gapStep w gaps ds))

lemma applyScopeDers_ge (w : Wallet) (dss : List BipDers) (ds : BipDers) (b idx : Nat)
    (hder : w.get_derivation ds = some (b, idx)) :
    ∀ gaps : List Nat, ds ∈ dss → b < gaps.length →
      idx + Wallet.GAP_LIMIT ≤ (w.applyScopeDers gaps dss).getD b 0 := by
  induction dss with
  | nil =>
    intro gaps hmem _
    cases hmem
  | cons d rest ih =>
    intro gaps hmem hb
    rcases List.mem_cons.mp hmem with rfl | hmem'
    · exact le_trans (gapStep_ge w gaps ds b idx hder hb) (applyScopeDers_mono w _ rest b)
    · exact ih (gapStep w gaps d) hmem' (by rw [gapStep_length]; exact hb)

lemma applyScopeDers_noop (w : Wallet) (dss : List BipDers) :
    ∀ gaps : List Nat,
      (∀ ds ∈ dss, ∀ b idx, w.get_derivation ds = some (b, idx) →
        idx + Wallet.GAP_LIMIT ≤ gaps.getD b 0) →
      w.applyScopeDers gaps dss = gaps := by
  induction dss with
  | nil =>
    intro gaps _
    rfl
  | cons d rest ih =>
    intro gaps h
    have hstep : gapStep w gaps d = gaps := gapStep_noop w gaps d (h d (List.mem_cons_self d rest))
    show w.applyScopeDers (gapStep w gaps d) rest = gaps
    rw [hstep]
    exact ih gaps (fun ds hm => h ds (List.mem_cons_of_mem d hm))

lemma get_derivation_congr (w1 w2 : Wallet) (hd : w1.descriptor = w2.descriptor) :
    ∀ ds : BipDers, w1.get_derivation ds = w2.get_derivation ds := by
  intro ds
  induction ds with
  | nil => rfl
  | cons p rest ih =>
    obtain ⟨pub, dp⟩ := p
    simp only [Wallet.get_derivation, hd, ih]

lemma get_derivation_valid (w : Wallet) :
    ∀ (ds : BipDers) (b idx : Nat), w.get_derivation ds = some (b, idx) →
      b < w.descriptor.num_branches ∧ idx < 2 ^ 31 := by
  intro ds
  induction ds with
  | nil =>
    intro b idx h
    simp [Wallet.get_derivation] at h
  | cons p rest ih =>
    intro b idx h
    obtain ⟨pub, dp⟩ := p
    simp only [Wallet.get_derivation] at h
    by_cases hl : 2 ≤ dp.derivation.length
    · rw [if_pos hl] at h
      cases hc : w.descriptor.checkDer dp with
      | none =>
        rw [hc] at h
        exact ih b idx h
      | some der =>
        rw [hc] at h
        have hder : der = (b, idx) := by
          injection h
        subst hder
        exact w.descriptor.checkDer_valid dp b idx hc
    · rw [if_neg hl] at h
      exact ih b idx h

lemma script_pubkey_ok (w : Wallet) (b idx : Nat)
    (hb : b < w.descriptor.num_branches) (hi : idx < 2 ^ 31) :
    w.script_pubkey (b, idx) = .ok (w.descriptor.deriveSpk idx b, w.gaps.getD b 0) := by
  have h31 : (2 : Nat) ^ 31 = 0x80000000 := by norm_num
  rw [h31] at hi
  show (if w.descriptor.num_branches ≤ b then (.error .invalidBranch : Except WErr (Script × Nat))
        else if 0x80000000 ≤ idx then .error .invalidIndex
        else .ok (w.descriptor.deriveSpk idx b, w.gaps.getD b 0)) = _
  rw [if_neg (by omega), if_neg (by omega)]

lemma owns_eq (w : Wallet) (t : TxOut) (ders : BipDers) (sc : Option Script) :
    w.owns t ders sc =
      if t.script_pubkey.stype ≠ w.descriptor.scriptpubkey_type then .ok false
      else if scriptLenBad w.descriptor sc then .ok false
      else
        match w.get_derivation ders with
        | none => .ok false
        | some (b, idx) => .ok (decide (w.descriptor.deriveSpk idx b = t.script_pubkey)) := by
  unfold Wallet.owns
  split
  · rfl
  · split
    · rfl
    · cases hder : w.get_derivation ders with
      | none => rfl
      | some der =>
        obtain ⟨b, idx⟩ := der
        have hv := get_derivation_valid w ders b idx hder
        dsimp only
        rw [script_pubkey_ok w b idx hv.1 hv.2]
        rfl

lemma owns_congr (w1 w2 : Wallet) (hd : w1.descriptor = w2.descriptor)
    (t : TxOut) (ders : BipDers) (sc : Option Script) :
    w1.owns t ders sc = w2.owns t ders sc := by
  rw [owns_eq, owns_eq, hd, get_derivation_congr w1 w2 hd ders]

lemma gapStep_congr (w1 w2 : Wallet) (hd : w1.descriptor = w2.descriptor)
    (gaps : List Nat) (ds : BipDers) : gapStep w1 gaps ds = gapStep w2 gaps ds := by
  unfold gapStep
  rw [get_derivation_congr w1 w2 hd ds]

lemma applyScopeDers_congr (w1 w2 : Wallet) (hd : w1.descriptor = w2.descriptor) :
    ∀ (gaps : List Nat) (dss : List BipDers),
      w1.applyScopeDers gaps dss = w2.applyScopeDers gaps dss := by
  intro gaps dss
  induction dss generalizing gaps with
  | nil => rfl
  | cons ds rest ih =>
    show w1.applyScopeDers (gapStep w1 gaps ds) rest = w2.applyScopeDers (gapStep w2 gaps ds) rest
    rw [gapStep_congr w1 w2 hd, ih]

lemma collectIns_congr (w1 w2 : Wallet) (hd : w1.descriptor = w2.descriptor) :
    ∀ l : List InputScope, w1.collectIns l = w2.collectIns l := by
  intro l
  induction l with
  | nil => rfl
  | cons inp rest ih =>
    unfold Wallet.collectIns
    rw [owns_congr w1 w2 hd, ih]

lemma collectOuts_congr (w1 w2 : Wallet) (hd : w1.descriptor = w2.descriptor) :
    ∀ l : List (OutputScope × TxOut), w1.collectOuts l = w2.collectOuts l := by
  intro l
  induction l with
  | nil => rfl
  | cons ot rest ih =>
    obtain ⟨out, txo⟩ := ot
    unfold Wallet.collectOuts
    rw [owns_congr w1 w2 hd, ih]

lemma collectScopes_congr (w1 w2 : Wallet) (hd : w1.descriptor = w2.descriptor)
    (p : Psbt) : w1.collectScopes p = w2.collectScopes p := by
  unfold Wallet.collectScopes
  rw [collectIns_congr w1 w2 hd, collectOuts_congr w1 w2 hd]

lemma except_map_ok {α β : Type} (f : α → β) (e : Except WErr α) (b : β)
    (h : e.map f = .ok b) : ∃ a, e = .ok a ∧ b = f a := by
  cases e with
  | error err => exact Except.noConfusion h
  | ok a =>
    refine ⟨a, rfl, ?_⟩
    have h2 : Except.ok (f a) = Except.ok b := h
    injection h2 with h3
    exact h3.symm

lemma update_gaps_inv (w : Wallet) (psbt : Option Psbt) (known : Option (List (Option Nat)))
    (w' : Wallet) (h : w.update_gaps psbt known = .ok w') :
    ∃ g1, w.gapsFromPsbt psbt = .ok g1 ∧ w' = w.withGaps (applyKnownOpt g1 known) := by
  obtain ⟨g1, hg, hw⟩ := except_map_ok _ _ _ h
  exact ⟨g1, hg, hw⟩

lemma gapsFromPsbt_some_inv (w : Wallet) (p : Psbt) (g1 : List Nat)
    (h : w.gapsFromPsbt (some p) = .ok g1) :
    ∃ dss, w.collectScopes p = .ok dss ∧ g1 = w.applyScopeDers w.gaps dss := by
  have h2 : (match w.collectScopes p with
      | Except.error e => Except.error e
      | Except.ok dss => Except.ok (w.applyScopeDers w.gaps dss)) = Except.ok g1 := h
  split at h2
  · exact Except.noConfusion h2
  · rename_i dss hc
    injection h2 with h3
    exact ⟨dss, hc, h3.symm⟩

lemma applyKnown_nil_right (l : Nat) (g : List Nat) : applyKnown l g [] = g := by
  cases g <;> rfl

lemma applyKnown_length (l : Nat) : ∀ (g : List Nat) (ks : List (Option Nat)),
    (applyKnown l g ks).length = g.length := by
  intro g
  induction g with
  | nil =>
    intro ks
    rfl
  | cons x gs ih =>
    intro ks
    cases ks with
    | nil => rfl
    | cons k kt =>
      show (knownStep l x k :: applyKnown l gs kt).length = _
      simp [ih kt]

lemma applyKnown_getD (l : Nat) : ∀ (g : List Nat) (ks : List (Option Nat)) (i : Nat),
    i < g.length →
      (applyKnown l g ks).getD i 0 = knownStep l (g.getD i 0) (ks.getD i none) := by
  intro g
  induction g with
  | nil =>
    intro ks i hi
    simp at hi
  | cons x gs ih =>
    intro ks i hi
    cases ks with
    | nil =>
      show (x :: gs).getD i 0 = knownStep l ((x :: gs).getD i 0) (([] : List (Option Nat)).getD i none)
      simp [knownStep]
    | cons k kt =>
      cases i with
      | zero => rfl
      | succ j =>
        show (applyKnown l gs kt).getD j 0 = knownStep l (gs.getD j 0) (kt.getD j none)
        exact ih kt j (by simpa using hi)

lemma knownStep_ge_old (l gv : Nat) (k : Option Nat) : gv ≤ knownStep l gv k := by
  cases k with
  | none => exact le_refl _
  | some v =>
    unfold knownStep
    dsimp only
    split <;> omega

lemma knownStep_ge_hint (l gv v : Nat) : v + l ≤ knownStep l gv (some v) := by
  unfold knownStep
  dsimp only
  split <;> omega

lemma knownStep_some_eq_max (l gv v : Nat) : knownStep l gv (some v) = max gv (v + l) := by
  unfold knownStep
  dsimp only
  rcases Nat.lt_or_ge gv (v + l) with hlt | hge
  · rw [if_pos (by omega), Nat.max_eq_right (by omega)]
  · rw [if_neg (by omega), Nat.max_eq_left hge]

lemma applyKnown_mono (l : Nat) (g : List Nat) (ks : List (Option Nat)) (i : Nat) :
    g.getD i 0 ≤ (applyKnown l g ks).getD i 0 := by
  by_cases hi : i < g.length
  · rw [applyKnown_getD l g ks i hi]
    exact knownStep_ge_old l _ _
  · have hle : g.length ≤ i := by omega
    rw [getD_oor g i hle, getD_oor _ i (by rw [applyKnown_length]; exact hle)]

lemma applyKnownOpt_none (g : List Nat) : applyKnownOpt g none = g := rfl

lemma applyKnownOpt_mono (g : List Nat) (known : Option (List (Option Nat))) (i : Nat) :
    g.getD i 0 ≤ (applyKnownOpt g known).getD i 0 := by
  cases known with
  | none => exact le_refl _
  | some ks => exact applyKnown_mono _ g ks i

lemma applyKnownOpt_length (g : List Nat) (known : Option (List (Option Nat))) :
    (applyKnownOpt g known).length = g.length := by
  cases known with
  | none => rfl
  | some ks => exact applyKnown_length _ g ks

lemma knownStep_comm (l gv : Nat) (k1 k2 : Option Nat) :
    knownStep l (knownStep l gv k1) k2 = knownStep l (knownStep l gv k2) k1 := by
  cases k1 with
  | none => rfl
  | some v1 =>
    cases k2 with
    | none => rfl
    | some v2 =>
      rw [knownStep_some_eq_max, knownStep_some_eq_max, knownStep_some_eq_max,
        knownStep_some_eq_max, max_assoc, max_comm (v1 + l) (v2 + l), ← max_assoc]

lemma applyKnown_comm (l : Nat) : ∀ (g : List Nat) (ks1 ks2 : List (Option Nat)),
    applyKnown l (applyKnown l g ks1) ks2 = applyKnown l (applyKnown l g ks2) ks1 := by
  intro g
  induction g with
  | nil =>
    intro ks1 ks2
    rfl
  | cons x gs ih =>
    intro ks1 ks2
    cases ks1 with
    | nil =>
      rw [applyKnown_nil_right, applyKnown_nil_right]
    | cons k1 kt1 =>
      cases ks2 with
      | nil =>
        rw [applyKnown_nil_right, applyKnown_nil_right]
      | cons k2 kt2 =>
        show knownStep l (knownStep l x k1) k2 :: applyKnown l (applyKnown l gs kt1) kt2 =
          knownStep l (knownStep l x k2) k1 :: applyKnown l (applyKnown l gs kt2) kt1
        rw [knownStep_comm, ih kt1 kt2]

lemma withGaps_gaps (w : Wallet) (g : List Nat) : (w.withGaps g).gaps = g := rfl

lemma withGaps_descriptor (w : Wallet) (g : List Nat) :
    (w.withGaps g).descriptor = w.descriptor := rfl

lemma withGaps_unused (w : Wallet) (g : List Nat) :
    (w.withGaps g).unused_recv = (g.headD 0 : Int) - (Wallet.GAP_LIMIT : Int) := rfl

lemma gapsFromPsbt_mono (w : Wallet) (psbt : Option Psbt) (g1 : List Nat)
    (h : w.gapsFromPsbt psbt = .ok g1) (i : Nat) : w.gaps.getD i 0 ≤ g1.getD i 0 := by
  cases psbt with
  | none =>
    have h2 : Except.ok w.gaps = Except.ok g1 := h
    injection h2 with h3
    rw [h3]
  | some p =>
    obtain ⟨dss, hc, rfl⟩ := gapsFromPsbt_some_inv w p g1 h
    exact applyScopeDers_mono w w.gaps dss i

lemma gapsFromPsbt_length (w : Wallet) (psbt : Option Psbt) (g1 : List Nat)
    (h : w.gapsFromPsbt psbt = .ok g1) : g1.length = w.gaps.length := by
  cases psbt with
  | none =>
    have h2 : Except.ok w.gaps = Except.ok g1 := h
    injection h2 with h3
    rw [h3]
  | some p =>
    obtain ⟨dss, hc, rfl⟩ := gapsFromPsbt_some_inv w p g1 h
    exact applyScopeDers_length w w.gaps dss

lemma update_gaps_descriptor (w : Wallet) (psbt : Option Psbt)
    (known : Option (List (Option Nat))) (w' : Wallet)
    (h : w.update_gaps psbt known = .ok w') : w'.descriptor = w.descriptor := by
  obtain ⟨g1, hg, rfl⟩ := update_gaps_inv w psbt known w' h
  rfl

lemma update_gaps_length (w : Wallet) (psbt : Option Psbt)
    (known : Option (List (Option Nat))) (w' : Wallet)
    (h : w.update_gaps psbt known = .ok w') : w'.gaps.length = w.gaps.length := by
  obtain ⟨g1, hg, rfl⟩ := update_gaps_inv w psbt known w' h
  rw [withGaps_gaps, applyKnownOpt_length]
  exact gapsFromPsbt_length w psbt g1 hg

lemma update_gaps_mono (w : Wallet) (psbt : Option Psbt)
    (known : Option (List (Option Nat))) (w' : Wallet)
    (h : w.update_gaps psbt known = .ok w') (i : Nat) :
    w.gaps.getD i 0 ≤ w'.gaps.getD i 0 := by
  obtain ⟨g1, hg, rfl⟩ := update_gaps_inv w psbt known w' h
  rw [withGaps_gaps]
  exact le_trans (gapsFromPsbt_mono w psbt g1 hg i) (applyKnownOpt_mono g1 known i)

lemma runUpdates_mono (cs : List (Option Psbt × Option (List (Option Nat)))) :
    ∀ (w w' : Wallet), runUpdates w cs = .ok w' →
      ∀ i, w.gaps.getD i 0 ≤ w'.gaps.getD i 0 := by
  induction cs with
  | nil =>
    intro w w' h i
    have h2 : Except.ok w = Except.ok w' := h
    injection h2 with h3
    rw [h3]
  | cons c rest ih =>
    intro w w' h i
    unfold runUpdates at h
    split at h
    · exact Except.noConfusion h
    · rename_i w1 hu
      exact le_trans (update_gaps_mono w c.1 c.2 w1 hu i) (ih w1 w' h i)

lemma CallBound_mono (w : Wallet) (c : Option Psbt × Option (List (Option Nat)))
    (g g' : List Nat) (hmono : ∀ i, g.getD i 0 ≤ g'.getD i 0)
    (h : CallBound w c g) : CallBound w c g' := by
  constructor
  · intro p hp dss hdss ds hds b idx hder
    exact le_trans (h.1 p hp dss hdss ds hds b idx hder) (hmono b)
  · intro ks hks i hi v hv
    exact le_trans (h.2 ks hks i hi v hv) (hmono i)

lemma CallBound_congr (w w1 : Wallet) (c : Option Psbt × Option (List (Option Nat)))
    (g : List Nat) (hd : w1.descriptor = w.descriptor)
    (hl : w1.gaps.length = w.gaps.length)
    (h : CallBound w1 c g) : CallBound w c g := by
  constructor
  · intro p hp dss hdss ds hds b idx hder
    refine h.1 p hp dss ?_ ds hds b idx ?_
    · rw [collectScopes_congr w1 w hd]
      exact hdss
    · rw [get_derivation_congr w1 w hd]
      exact hder
  · intro ks hks i hi v hv
    exact h.2 ks hks i (by rw [hl]; exact hi) v hv

lemma update_gaps_callBound (w w1 : Wallet) (c : Option Psbt × Option (List (Option Nat)))
    (hlen : w.gaps.length = w.descriptor.num_branches)
    (h : w.update_gaps c.1 c.2 = .ok w1) : CallBound w c w1.gaps := by
  obtain ⟨g1, hg, rfl⟩ := update_gaps_inv w c.1 c.2 w1 h
  rw [withGaps_gaps]
  constructor
  · intro p hp dss hdss ds hds b idx hder
    rw [hp] at hg
    obtain ⟨dss', hc, rfl⟩ := gapsFromPsbt_some_inv w p _ hg
    rw [hc] at hdss
    injection hdss with hdd
    subst hdd
    have hb : b < w.gaps.length := by
      rw [hlen]
      exact (get_derivation_valid w ds b idx hder).1
    exact le_trans (applyScopeDers_ge w dss' ds b idx hder w.gaps hds hb)
      (applyKnownOpt_mono _ c.2 b)
  · intro ks hks i hi v hv
    rw [hks]
    have hi1 : i < g1.length := by
      rw [gapsFromPsbt_length w c.1 g1 hg]
      exact hi
    show v + Wallet.GAP_LIMIT ≤ (applyKnown Wallet.GAP_LIMIT g1 ks).getD i 0
    rw [applyKnown_getD _ g1 ks i hi1, hv]
    exact knownStep_ge_hint _ _ _

lemma runUpdates_callBounds (cs : List (Option Psbt × Option (List (Option Nat)))) :
    ∀ (w w' : Wallet), w.gaps.length = w.descriptor.num_branches →
      runUpdates w cs = .ok w' → ∀ c ∈ cs, CallBound w c w'.gaps := by
  induction cs with
  | nil =>
    intro w w' _ _ c hc
    cases hc
  | cons c0 rest ih =>
    intro w w' hlen h c hc
    unfold runUpdates at h
    split at h
    · exact Except.noConfusion h
    · rename_i w1 hu
      rcases List.mem_cons.mp hc with rfl | hc'
      · exact CallBound_mono w c _ _ (fun i => runUpdates_mono rest w1 w' h i)
          (update_gaps_callBound w w1 c hlen hu)
      · have hd : w1.descriptor = w.descriptor := update_gaps_descriptor w c0.1 c0.2 w1 hu
        have hl : w1.gaps.length = w.gaps.length := update_gaps_length w c0.1 c0.2 w1 hu
        have hlen1 : w1.gaps.length = w1.descriptor.num_branches := by
          rw [hl, hd]
          exact hlen
        exact CallBound_congr w w1 c w'.gaps hd hl (ih w1 w' hlen1 h c hc')

lemma update_gaps_known_eq (w : Wallet) (ks : List (Option Nat)) :
    w.update_gaps none (some ks) =
      .ok (w.withGaps (applyKnown Wallet.GAP_LIMIT w.gaps ks)) := rfl

lemma scriptLenBad_false_iff (d : Descriptor) (sc : Option Script) :
    scriptLenBad d sc = false ↔ ∀ s, sc = some s → s.data.length = d.script_len := by
  cases sc with
  | none => simp [scriptLenBad]
  | some s => simp [scriptLenBad]

lemma splitChar_not_mem (sep : Char) (l : List Char) (h : sep ∉ l) :
    splitChar sep l = [l] := by
  induction l with
  | nil => rfl
  | cons c rest ih =>
    have hc : ¬ c = sep := by
      intro e
      exact h (by rw [← e]; exact List.mem_cons_self c rest)
    have hr : sep ∉ rest := fun m => h (List.mem_cons_of_mem c m)
    show (if c = sep then [] :: splitChar sep rest
          else (c :: (splitChar sep rest).headD []) :: (splitChar sep rest).tail) = [c :: rest]
    rw [if_neg hc, ih hr]
    rfl

lemma splitChar_append (sep : Char) (d : List Char) :
    ∀ n : List Char, sep ∉ n → splitChar sep (n ++ sep :: d) = n :: splitChar sep d := by
  intro n
  induction n with
  | nil =>
    intro _
    show (if sep = sep then [] :: splitChar sep d
          else (sep :: (splitChar sep d).headD []) :: (splitChar sep d).tail) =
      [] :: splitChar sep d
    rw [if_pos rfl]
  | cons c rest ih =>
    intro hn
    have hc : ¬ c = sep := by
      intro e
      exact hn (by rw [← e]; exact List.mem_cons_self c rest)
    have hr : sep ∉ rest := fun m => hn (List.mem_cons_of_mem c m)
    show (if c = sep then [] :: splitChar sep (rest ++ sep :: d)
          else (c :: (splitChar sep (rest ++ sep :: d)).headD []) ::
            (splitChar sep (rest ++ sep :: d)).tail) = (c :: rest) :: splitChar sep d
    rw [if_neg hc, ih hr]
    rfl

lemma splitChar_two (sep : Char) (n d : List Char) (hn : sep ∉ n) (hd : sep ∉ d) :
    splitChar sep (n ++ sep :: d) = [n, d] := by
  rw [splitChar_append sep d n hn, splitChar_not_mem sep d hd]

/-- C1 (counterexample): the claimed `max(old, observed + margin)` law fails at
the boundary.  On a fresh wallet (branch-0 watermark 20) a PSBT whose sole
owned scope is at coordinate `(0, 0)` — so `observed + GAP_LIMIT = 20` equals
the old watermark — leaves the watermark at 20, while the claim's formula
`max(20, 0 + GAP_LIMIT + 1) = 21` demands it rise to 21. -/
theorem update_gaps_not_max_at_boundary :
    demoW.update_gaps (some (demoPsbt 0 0)) none = .ok cw10 ∧
    demoW.collectScopes (demoPsbt 0 0) = .ok [[(1, ⟨[9, 9, 9, 9], [0, 0]⟩)]] ∧
    demoW.get_derivation [(1, ⟨[9, 9, 9, 9], [0, 0]⟩)] = some (0, 0) ∧
    demoW.gaps.getD 0 0 = 0 + Wallet.GAP_LIMIT ∧
    cw10.gaps.getD 0 0 = 20 ∧
    max (demoW.gaps.getD 0 0) (0 + Wallet.GAP_LIMIT + 1) = 21 :=
  ⟨rfl, rfl, rfl, rfl, rfl, by decide⟩

/-- C1 (amended): for a single owned-scope observation `(b, idx)`,
`update_gaps` sets the branch-`b` watermark to
`max(old, idx + GAP_LIMIT + 1)` except when the old watermark equals
`idx + GAP_LIMIT` exactly, in which case it is left unchanged (the source
tests `idx + GAP_LIMIT > old` but writes `idx + GAP_LIMIT + 1`); other
branches are untouched.  For the external `known_idxs` vector the claimed law
holds as stated: each present entry `v` sets the branch watermark to
`max(old, v + GAP_LIMIT)` and absent entries leave it unchanged. -/
theorem update_gaps_margin_rule (w wp wk : Wallet) (p : Psbt) (ds : BipDers)
    (b idx : Nat) (ks : List (Option Nat))
    (hcol : w.collectScopes p = .ok [ds])
    (hder : w.get_derivation ds = some (b, idx))
    (hb : b < w.gaps.length)
    (hp : w.update_gaps (some p) none = .ok wp)
    (hk : w.update_gaps none (some ks) = .ok wk) :
    (wp.gaps.getD b 0 =
      if w.gaps.getD b 0 = idx + Wallet.GAP_LIMIT then w.gaps.getD b 0
      else max (w.gaps.getD b 0) (idx + Wallet.GAP_LIMIT + 1)) ∧
    (∀ j, j ≠ b → wp.gaps.getD j 0 = w.gaps.getD j 0) ∧
    (∀ i, i < w.gaps.length → ∀ v, ks.getD i none = some v →
      wk.gaps.getD i 0 = max (w.gaps.getD i 0) (v + Wallet.GAP_LIMIT)) ∧
    (∀ i, i < w.gaps.length → ks.getD i none = none →
      wk.gaps.getD i 0 = w.gaps.getD i 0) := by
  obtain ⟨g1, hg, rfl⟩ := update_gaps_inv w (some p) none wp hp
  obtain ⟨dss, hc, rfl⟩ := gapsFromPsbt_some_inv w p g1 hg
  rw [hcol] at hc
  injection hc with hdd
  subst hdd
  have hkk := (update_gaps_known_eq w ks).symm.trans hk
  injection hkk with hkw
  have hwp : (w.withGaps (applyKnownOpt (w.applyScopeDers w.gaps [ds]) none)).gaps
      = gapStep w w.gaps ds := rfl
  refine ⟨?_, ?_, ?_, ?_⟩
  · rw [hwp]
    unfold gapStep
    rw [hder]
    dsimp only
    by_cases hcond : idx + Wallet.GAP_LIMIT > w.gaps.getD b 0
    · rw [if_pos hcond, getD_set, if_pos ⟨rfl, hb⟩, if_neg (by omega),
        Nat.max_eq_right (by omega)]
    · rw [if_neg hcond]
      by_cases heq : w.gaps.getD b 0 = idx + Wallet.GAP_LIMIT
      · rw [if_pos heq]
      · rw [if_neg heq, Nat.max_eq_left (by omega)]
  · intro j hj
    rw [hwp]
    unfold gapStep
    rw [hder]
    dsimp only
    split
    · rw [getD_set, if_neg (fun hcj => hj hcj.1)]
    · rfl
  · intro i hi v hv
    rw [← hkw, withGaps_gaps, applyKnown_getD _ _ _ i hi, hv, knownStep_some_eq_max]
  · intro i hi hv
    rw [← hkw, withGaps_gaps, applyKnown_getD _ _ _ i hi, hv]
    rfl

/-- C1 (witness): on the fresh two-branch wallet, the PSBT observation
`(0, 5)` raises the branch-0 watermark to `max(20, 26) = 26` and the hint
vector `[some 30, none]` raises it to `max(20, 50) = 50`. -/
theorem update_gaps_margin_rule_witness :
    demoW.collectScopes (demoPsbt 0 5) = .ok [[(1, ⟨[9, 9, 9, 9], [0, 5]⟩)]] ∧
    (0 : Nat) < demoW.gaps.length ∧
    cw15.gaps.getD 0 0 = max (demoW.gaps.getD 0 0) (5 + Wallet.GAP_LIMIT + 1) ∧
    cw1k.gaps.getD 0 0 = max (demoW.gaps.getD 0 0) (30 + Wallet.GAP_LIMIT) := by
  have h := update_gaps_margin_rule demoW cw15 cw1k (demoPsbt 0 5)
    [(1, ⟨[9, 9, 9, 9], [0, 5]⟩)] 0 5 [some 30, none] rfl rfl (by decide) rfl rfl
  refine ⟨rfl, by decide, ?_, ?_⟩
  · have h1 := h.1
    rw [if_neg (by decide)] at h1
    exact h1
  · exact h.2.2.1 0 (by decide) 30 rfl

/-- C3 (counterexample): gap-advance applications do not commute.  The same
two owned observations, `(0, 1)` and `(0, 2)`, folded by `update_gaps` in the
two input orders from watermarks `[20, 20]`, give `[22, 20]` in one order and
`[23, 20]` in the other. -/
theorem update_gaps_order_dependent :
    demoW.update_gaps (some cpO12) none = .ok cw312 ∧
    demoW.update_gaps (some cpO21) none = .ok cw321 ∧
    cw312.gaps = [22, 20] ∧ cw321.gaps = [23, 20] ∧ cw312.gaps ≠ cw321.gaps :=
  ⟨rfl, rfl, rfl, rfl, by decide⟩

/-- C3 (amended): external known-index hint applications do commute — two
`update_gaps` calls carrying only `known_idxs` vectors yield the same gap
state and `unused_recv` in either order (each entry is a pure max); PSBT
observation applications do not commute in general, because the PSBT update
writes `observed + GAP_LIMIT + 1` after testing `observed + GAP_LIMIT`
against the current watermark. -/
theorem hint_updates_commute (w w1 w12 w2 w21 : Wallet) (ks1 ks2 : List (Option Nat))
    (h1 : w.update_gaps none (some ks1) = .ok w1)
    (h12 : w1.update_gaps none (some ks2) = .ok w12)
    (h2 : w.update_gaps none (some ks2) = .ok w2)
    (h21 : w2.update_gaps none (some ks1) = .ok w21) :
    w12.gaps = w21.gaps ∧ w12.unused_recv = w21.unused_recv := by
  have e1 := (update_gaps_known_eq w ks1).symm.trans h1
  injection e1 with e1'
  have e2 := (update_gaps_known_eq w ks2).symm.trans h2
  injection e2 with e2'
  have e12 := (update_gaps_known_eq w1 ks2).symm.trans h12
  injection e12 with e12'
  have e21 := (update_gaps_known_eq w2 ks1).symm.trans h21
  injection e21 with e21'
  have g1 : w1.gaps = applyKnown Wallet.GAP_LIMIT w.gaps ks1 := by
    rw [← e1']
    rfl
  have g2 : w2.gaps = applyKnown Wallet.GAP_LIMIT w.gaps ks2 := by
    rw [← e2']
    rfl
  have hcomm : applyKnown Wallet.GAP_LIMIT w1.gaps ks2 =
      applyKnown Wallet.GAP_LIMIT w2.gaps ks1 := by
    rw [g1, g2]
    exact applyKnown_comm Wallet.GAP_LIMIT w.gaps ks1 ks2
  constructor
  · rw [← e12', ← e21', withGaps_gaps, withGaps_gaps, hcomm]
  · rw [← e12', ← e21', withGaps_unused, withGaps_unused, hcomm]

/-- C3 (witness): the hint vectors `[some 30, none]` and `[some 25, some 40]`
folded in either order both give gaps `[50, 60]`. -/
theorem hint_updates_commute_witness :
    demoW.update_gaps none (some ks3a) = .ok cw3a ∧
    cw3a.update_gaps none (some ks3b) = .ok cw3ab ∧
    demoW.update_gaps none (some ks3b) = .ok cw3b ∧
    cw3b.update_gaps none (some ks3a) = .ok cw3ba ∧
    cw3ab.gaps = cw3ba.gaps := by
  refine ⟨rfl, rfl, rfl, rfl, ?_⟩
  exact (hint_updates_commute demoW cw3a cw3ab cw3b cw3ba ks3a ks3b rfl rfl rfl rfl).1

/-- C6 (counterexample): with the PSBT margin `GAP_LIMIT + 1` the claimed
final lower bound fails: the observation `(1, 0)` on watermark 20 leaves the
branch-1 watermark at 20, below the margin-adjusted value
`0 + (GAP_LIMIT + 1) = 21`. -/
theorem watermark_below_psbt_margin :
    runUpdates demoW [(some (demoPsbt 1 0), none)] = .ok cw61 ∧
    demoW.collectScopes (demoPsbt 1 0) = .ok [[(1, ⟨[9, 9, 9, 9], [1, 0]⟩)]] ∧
    demoW.get_derivation [(1, ⟨[9, 9, 9, 9], [1, 0]⟩)] = some (1, 0) ∧
    cw61.gaps.getD 1 0 = 20 ∧
    ¬ (0 + (Wallet.GAP_LIMIT + 1) ≤ cw61.gaps.getD 1 0) :=
  ⟨rfl, rfl, rfl, rfl, by decide⟩

/-- C6 (amended): across any sequence of `update_gaps` calls every branch
watermark is monotone non-decreasing, and the final watermark is at least
`observed_index + GAP_LIMIT` for every observation ever folded in for that
branch — both PSBT-recovered coordinates and external hints (for PSBT
observations the claimed stronger bound `observed + GAP_LIMIT + 1` fails
exactly when the watermark already equalled `observed + GAP_LIMIT`). -/
theorem watermarks_monotone_with_gap_bound (w w' : Wallet)
    (calls : List (Option Psbt × Option (List (Option Nat))))
    (hlen : w.gaps.length = w.descriptor.num_branches)
    (hrun : runUpdates w calls = .ok w') :
    (∀ b, w.gaps.getD b 0 ≤ w'.gaps.getD b 0) ∧
    ∀ c ∈ calls, CallBound w c w'.gaps :=
  ⟨fun b => runUpdates_mono calls w w' hrun b,
   runUpdates_callBounds calls w w' hlen hrun⟩

/-- C6 (witness): a two-call sequence (PSBT observation `(0, 5)`, then hint
vector `[some 30, none]`) on the fresh wallet; the branch-0 watermark never
decreases. -/
theorem watermarks_monotone_with_gap_bound_witness :
    demoW.gaps.length = demoW.descriptor.num_branches ∧
    runUpdates demoW calls6 = .ok cw6 ∧
    demoW.gaps.getD 0 0 ≤ cw6.gaps.getD 0 0 := by
  refine ⟨rfl, rfl, ?_⟩
  exact (watermarks_monotone_with_gap_bound demoW cw6 calls6 rfl rfl).1 0

/-- C7: reconciliation is idempotent — reconciling the same PSBT a second
time (no intervening changes) leaves every branch watermark and
`unused_recv` unchanged from their values after the first call. -/
theorem update_gaps_idempotent (w w1 w2 : Wallet) (p : Psbt)
    (hlen : w.gaps.length = w.descriptor.num_branches)
    (h1 : w.update_gaps (some p) none = .ok w1)
    (h2 : w1.update_gaps (some p) none = .ok w2) :
    w2.gaps = w1.gaps ∧ w2.unused_recv = w1.unused_recv := by
  obtain ⟨g1, hg1, rfl⟩ := update_gaps_inv w (some p) none w1 h1
  obtain ⟨dss, hc1, rfl⟩ := gapsFromPsbt_some_inv w p g1 hg1
  obtain ⟨g2, hg2, rfl⟩ := update_gaps_inv _ (some p) none w2 h2
  obtain ⟨dss2, hc2, rfl⟩ := gapsFromPsbt_some_inv _ p g2 hg2
  rw [collectScopes_congr (w.withGaps (applyKnownOpt (w.applyScopeDers w.gaps dss) none)) w rfl,
    hc1] at hc2
  injection hc2 with hdd
  subst hdd
  have key : (w.withGaps (w.applyScopeDers w.gaps dss)).applyScopeDers
      (w.withGaps (w.applyScopeDers w.gaps dss)).gaps dss
      = w.applyScopeDers w.gaps dss := by
    rw [applyScopeDers_congr (w.withGaps (w.applyScopeDers w.gaps dss)) w rfl]
    exact applyScopeDers_noop w dss (w.applyScopeDers w.gaps dss)
      (fun ds hds b idx hder =>
        applyScopeDers_ge w dss ds b idx hder w.gaps hds
          (by rw [hlen]; exact (get_derivation_valid w ds b idx hder).1))
  constructor
  · simp only [withGaps_gaps, applyKnownOpt_none]
    exact key
  · simp only [withGaps_unused, applyKnownOpt_none]
    rw [key]

/-- C7 (witness): reconciling the PSBT with observation `(0, 3)` twice from
the fresh wallet gives gaps `[24, 20]` both times. -/
theorem update_gaps_idempotent_witness :
    demoW.gaps.length = demoW.descriptor.num_branches ∧
    demoW.update_gaps (some (demoPsbt 0 3)) none = .ok cw7a ∧
    cw7a.update_gaps (some (demoPsbt 0 3)) none = .ok cw7b ∧
    cw7b.gaps = cw7a.gaps := by
  refine ⟨rfl, rfl, rfl, ?_⟩
  exact (update_gaps_idempotent demoW cw7a cw7b (demoPsbt 0 3) rfl rfl rfl).1

/-- C4: `owns(tx_out, bip32_derivations, script)` returns true exactly when
all four short-circuited checks pass — script-pubkey type equality, length of
a present witness/redeem script, recovery of a coordinate from the claimed
hints (at least two path components, first hint passing the derivation
check), and byte-equality of the script-pubkey derived at that recovered
coordinate; and the result is always a plain boolean (any single failing
check yields false, no partial match). -/
theorem owns_four_checks (w : Wallet) (tx_out : TxOut) (ders : BipDers) (sc : Option Script) :
    (w.owns tx_out ders sc = .ok true ↔
      tx_out.script_pubkey.stype = w.descriptor.scriptpubkey_type ∧
      (∀ s, sc = some s → s.data.length = w.descriptor.script_len) ∧
      (∃ b idx, w.get_derivation ders = some (b, idx) ∧
        w.descriptor.deriveSpk idx b = tx_out.script_pubkey)) ∧
    (w.owns tx_out ders sc = .ok true ∨ w.owns tx_out ders sc = .ok false) := by
  rw [owns_eq]
  constructor
  · by_cases h1 : tx_out.script_pubkey.stype = w.descriptor.scriptpubkey_type
    · rw [if_neg (by simp [h1])]
      by_cases h2 : scriptLenBad w.descriptor sc = true
      · rw [if_pos h2]
        constructor
        · intro h
          exact absurd h (by simp)
        · rintro ⟨-, hlen2, -⟩
          have hfalse := (scriptLenBad_false_iff w.descriptor sc).mpr hlen2
          rw [hfalse] at h2
          exact absurd h2 (by simp)
      · rw [if_neg h2]
        cases hder : w.get_derivation ders with
        | none =>
          constructor
          · intro h
            exact absurd h (by simp)
          · rintro ⟨-, -, b, idx, hsome, -⟩
            exact Option.noConfusion hsome
        | some der =>
          obtain ⟨b, idx⟩ := der
          dsimp only
          constructor
          · intro h
            have h3 : Except.ok (ε := WErr)
                (decide (w.descriptor.deriveSpk idx b = tx_out.script_pubkey)) =
                Except.ok true := h
            injection h3 with h4
            exact ⟨h1, (scriptLenBad_false_iff w.descriptor sc).mp (by simpa using h2),
              b, idx, rfl, of_decide_eq_true h4⟩
          · rintro ⟨-, -, b', idx', hsome, hspk⟩
            injection hsome with hpair
            injection hpair with hb hi
            subst hb
            subst hi
            rw [decide_eq_true hspk]
    · rw [if_pos h1]
      constructor
      · intro h
        exact absurd h (by simp)
      · rintro ⟨he, -, -⟩
        exact absurd he h1
  · by_cases h1 : tx_out.script_pubkey.stype ≠ w.descriptor.scriptpubkey_type
    · rw [if_pos h1]
      exact Or.inr rfl
    · rw [if_neg h1]
      by_cases h2 : scriptLenBad w.descriptor sc = true
      · rw [if_pos h2]
        exact Or.inr rfl
      · rw [if_neg h2]
        cases w.get_derivation ders with
        | none => exact Or.inr rfl
        | some der =>
          obtain ⟨b, idx⟩ := der
          dsimp only
          cases hdec : decide (w.descriptor.deriveSpk idx b = tx_out.script_pubkey) with
          | false => exact Or.inr rfl
          | true => exact Or.inl rfl

/-- C5: round-trip of derivation and ownership — for a coordinate inside the
declared bounds, a scope whose script-pubkey equals the wallet's derived
script-pubkey there and which carries a correct claimed hint is owned, and
`get_derivation` recovers exactly that coordinate.  (The hypothesis on the
derived script's structural type is the descriptor-engine invariant that a
derived script-pubkey has the descriptor's script-pubkey type.) -/
theorem derive_owns_roundtrip (w : Wallet) (b i pub : Nat) (dp : DerivationPath) (t : TxOut)
    (hb : b < w.descriptor.num_branches) (hi : i < 2 ^ 31)
    (hspk : t.script_pubkey = w.descriptor.deriveSpk i b)
    (hstype : (w.descriptor.deriveSpk i b).stype = w.descriptor.scriptpubkey_type)
    (hl2 : 2 ≤ dp.derivation.length)
    (hchk : w.descriptor.checkDer dp = some (b, i)) :
    w.owns t [(pub, dp)] none = .ok true ∧
    w.get_derivation [(pub, dp)] = some (b, i) := by
  have hget : w.get_derivation [(pub, dp)] = some (b, i) := by
    show (if 2 ≤ dp.derivation.length then
            match w.descriptor.checkDer dp with
            | some der => some der
            | none => w.get_derivation []
          else w.get_derivation []) = some (b, i)
    rw [if_pos hl2, hchk]
  refine ⟨?_, hget⟩
  rw [owns_eq, if_neg (by rw [hspk]; simp [hstype]), if_neg (by simp [scriptLenBad]), hget]
  dsimp only
  rw [decide_eq_true hspk.symm]

/-- C5 (witness): coordinate `(1, 3)` on the concrete two-branch wallet. -/
theorem derive_owns_roundtrip_witness :
    demoW.owns ⟨⟨[1, 3], 7⟩⟩ [(1, ⟨[9, 9, 9, 9], [1, 3]⟩)] none = .ok true ∧
    demoW.get_derivation [(1, ⟨[9, 9, 9, 9], [1, 3]⟩)] = some (1, 3) :=
  derive_owns_roundtrip demoW 1 3 1 ⟨[9, 9, 9, 9], [1, 3]⟩ ⟨⟨[1, 3], 7⟩⟩
    (by decide) (by decide) rfl rfl (by decide) (by decide)

/-- C2 (code evaluation at the failing input): on an input tagged with this
wallet's fingerprint and value decoding to steps `[0, 7]` (branch 0, address
index 7), `fill_psbt` inserts the claimed-derivation entry the claim
describes — pubkey `key.derive([0,7])`, path `key.derivation ++ [0, 7]` —
but sets the witness script to `deriveWitness 0 7`, the script at branch 7 /
index 0 (the splat `derive(*steps)` passes the branch as the library's
address-index argument), which differs from the claimed script at branch 0 /
index 7, namely `deriveWitness 7 0`. -/
theorem fill_psbt_swaps_branch_and_index :
    Wallet.fill_psbt demoLib demoW cp2 [9, 9, 9, 9] =
      .ok ⟨[], [{ utxo := ⟨⟨[], 0⟩⟩,
                  bip32_derivations := [(70108, ⟨[9, 9, 9, 9], [5, 0, 7]⟩)],
                  witness_script := some (demoDesc.deriveWitness 0 7),
                  redeem_script := none,
                  unknown := [([0xfc, 0xca, 0x01, 1, 2, 3, 4], [0, 0, 0, 0, 7, 0, 0, 0])],
                  sigs := [] }], []⟩ ∧
    demoDesc.keys.map (fun k => (k.fingerprint, k.derivation, k.deriveChild [0, 7])) =
      [([9, 9, 9, 9], [5], 70108)] ∧
    demoDesc.deriveWitness 0 7 ≠ demoDesc.deriveWitness 7 0 :=
  ⟨rfl, rfl, by decide⟩

/-- C8 (counterexample): a display string whose descriptor part contains a
further ampersand is not split on the first one — `parse` raises the Python
unpacking error instead of returning a wallet named `"a"` with descriptor
string `"b&c"`. -/
theorem parse_fails_on_two_amps :
    Wallet.parse demoLib ("a&b&c".toList) none = .error .valueError := rfl

/-- C8 (amended): when the display string contains exactly one ampersand,
`parse` splits there — text before it becomes the name, text after it the
descriptor string handed to `from_descriptor` — and the wallet's display
string is `name & descriptor`; with further ampersands present `parse` fails
instead of splitting on the first. -/
theorem parse_single_amp_splits (lib : BtcLib) (n d : List Char)
    (path : Option (List Char)) (w : Wallet)
    (hn : '&' ∉ n) (hd : '&' ∉ d)
    (hfd : Wallet.from_descriptor lib d path = .ok w) :
    Wallet.parse lib (n ++ '&' :: d) path = .ok { w with name := n } ∧
    Wallet.toStr lib { w with name := n } = n ++ '&' :: lib.descToString w.descriptor := by
  constructor
  · unfold Wallet.parse
    rw [if_pos (List.mem_append.mpr (Or.inr (List.mem_cons_self '&' d))),
      splitChar_two '&' n d hn hd]
    show ((match Wallet.from_descriptor lib d path with
          | Except.error e => Except.error e
          | Except.ok w0 => Except.ok { w0 with name := n }) : Except WErr Wallet) =
      Except.ok { w with name := n }
    rw [hfd]
  · rfl

/-- C8 (witness): `"a&b"` parses into the wallet from descriptor string
`"b"` renamed to `"a"`. -/
theorem parse_single_amp_splits_witness :
    Wallet.from_descriptor demoLib ['b'] none = .ok cw8 ∧
    Wallet.parse demoLib ('a' :: '&' :: 'b' :: []) none = .ok { cw8 with name := ['a'] } := by
  refine ⟨rfl, ?_⟩
  exact (parse_single_amp_splits demoLib ['a'] ['b'] none cw8 (by decide) (by decide) rfl).1

/-- C9: a wallet holding no private key material (no descriptor key is
private) returns from `sign_psbt` without modifying the PSBT at all, for
every PSBT and every sighash mode. -/
theorem sign_psbt_watchonly_noop (lib : BtcLib) (w : Wallet) (psbt : Psbt) (sighash : Nat)
    (h : w.has_private_keys = false) :
    w.sign_psbt lib psbt sighash = psbt := by
  unfold Wallet.sign_psbt
  rw [h]
  rfl

/-- C9 (witness): the concrete watch-only wallet leaves a PSBT untouched. -/
theorem sign_psbt_watchonly_noop_witness :
    demoW.has_private_keys = false ∧
    demoW.sign_psbt demoLib (demoPsbt 0 0) 1 = demoPsbt 0 0 :=
  ⟨rfl, sign_psbt_watchonly_noop demoLib demoW (demoPsbt 0 0) 1 rfl⟩

/-- C10: calling `save` with no stored path and no path argument raises the
wallet error, but only after the keystore attribute has been bound — the
returned state carries the passed keystore despite the failure. -/
theorem save_binds_keystore_despite_error (w : Wallet) (ks : Nat) (h : w.path = none) :
    (w.save ks none).2 = .error .pathNotDefined ∧
    (w.save ks none).1.keystore = some ks := by
  have hsave : w.save ks none = ({ w with keystore := some ks }, .error .pathNotDefined) := by
    show (match ({ w with keystore := some ks } : Wallet).path with
          | none => (({ w with keystore := some ks } : Wallet),
              (Except.error WErr.pathNotDefined : Except WErr (List (List Char))))
          | some p => (({ w with keystore := some ks } : Wallet),
              Except.ok [p ++ ('/' :: "descriptor".toList), p ++ ('/' :: "meta".toList)])) =
      ({ w with keystore := some ks }, Except.error WErr.pathNotDefined)
    rw [show ({ w with keystore := some ks } : Wallet).path = none from h]
  rw [hsave]
  exact ⟨rfl, rfl⟩

/-- C10 (witness): the concrete never-persisted wallet ends up with keystore
5 bound even though `save` fails. -/
theorem save_binds_keystore_despite_error_witness :
    demoW.path = none ∧
    (demoW.save 5 none).2 = .error .pathNotDefined ∧
    (demoW.save 5 none).1.keystore = some 5 := by
  refine ⟨rfl, ?_, ?_⟩
  · exact (save_binds_keystore_despite_error demoW 5 rfl).1
  · exact (save_binds_keystore_despite_error demoW 5 rfl).2

end SpecterDiy
